import Mathlib

set_option autoImplicit false

namespace VSO

/-!
Verification of the client-cache identity and lifecycle-coordination layer
of the vault-secrets-operator controller.

Two components are treated:

1.  The cache-key component (package internal/vault).  The repository ships
    only the unit tests for this component
    (src/internal/vault/cache_key_test.go); the implementation file itself
    is not among the sources.  Its definitions below are therefore modelled
    from the specification, with the numeric constants and the reference
    digest pinned by those unit tests.

2.  The annotation publisher and the revocation watcher
    (src/internal/helpers/deployment.go), embedded directly from the Go
    source.
-/

/-! Section 1: cache-key model (package internal/vault, spec-modelled). -/

/-- Decidable equality of Except values, used to evaluate the modelled
operations on concrete inputs. -/
instance instDecEqExcept {ε α : Type} [DecidableEq ε] [DecidableEq α] :
    DecidableEq (Except ε α)
  | .error e, .error f =>
    if h : e = f then .isTrue (h ▸ rfl)
    else .isFalse (fun hh => h (Except.error.inj hh))
  | .error _, .ok _ => .isFalse Except.noConfusion
  | .ok _, .error _ => .isFalse Except.noConfusion
  | .ok a, .ok b =>
    if h : a = b then .isTrue (h ▸ rfl)
    else .isFalse (fun hh => h (Except.ok.inj hh))

/-- Modelled from the spec: required width of a length-checked identity
token ("exactly 36 characters in the reference system"). -/
def requiredUIDLength : Nat := 36

/-- Modelled from the spec: width of the fixed-width hash segment of a
cache key.  The reference digest pinned by the unit tests,
"2a8108711ae49ac0faa724", has 22 characters. -/
def hashSegmentLength : Nat := 22

/-- Modelled from the spec: maximum admissible length of the method label
(reference system: 40 characters). -/
def maxMethodLength : Nat := 40

/-- Modelled from the spec: maximum total key length; the spec states that
the method label alone must not exceed MAX_TOTAL - 1 - HASH_LEN, so
MAX_TOTAL is the method bound plus the separator plus the hash width. -/
def maxCacheKeyLength : Nat := maxMethodLength + 1 + hashSegmentLength

/-- Modelled from the spec (section 7): the closed enumeration of sentinel
error conditions of the cache-key component, matched by identity. -/
inductive CacheKeyError where
  | invalidUIDLength (uid : String)
  | duplicateUID (a b : String)
  | keyLengthExceeded (methodLen : Nat)
  | emptyNamespace
  | clonedParentNotAllowed
deriving DecidableEq, Repr

/-- Modelled from the spec (section 4.1, Identity Validator): return the
candidate token unchanged if and only if its length equals the fixed
required width, otherwise fail with the InvalidIdentityLength condition
naming the offending token. -/
def validateUID (uid : String) : Except CacheKeyError String :=
  if uid.length = requiredUIDLength then .ok uid
  else .error (.invalidUIDLength uid)

/-- Hexadecimal digit for one nibble. -/
def hexDigit (n : Nat) : Char :=
  if n < 10 then Char.ofNat (48 + n) else Char.ofNat (87 + n)

/-- Offset basis of the 128-bit FNV-1a digest. -/
def fnv128OffsetBasis : Nat := 0x6c62272e07bb014262b821756295c58d

/-- Prime of the 128-bit FNV-1a digest. -/
def fnv128Prime : Nat := 0x0000000001000000000000000000013b

/-- FNV-1a, 128 bits, over a character list (code points reduced modulo
256; the inputs of interest are ASCII). -/
def fnv128a (cs : List Char) : Nat :=
  cs.foldl (fun h c => ((h ^^^ c.toNat % 256) * fnv128Prime) % 2 ^ 128)
    fnv128OffsetBasis

/-- Fixed-width rendering of a natural number as hashSegmentLength
lowercase hexadecimal characters (most significant nibble first). -/
def hexFixed (n : Nat) : String :=
  String.mk ((List.range hashSegmentLength).map
    (fun i => hexDigit (n / 16 ^ (hashSegmentLength - 1 - i) % 16)))

/-- Modelled from the spec (section 3, Hash): canonical serialization of
the ordered input tuple (auth identity token, auth generation, connection
identity token, connection generation, provider identity token).  The unit
tests pin the digest to be independent of the method label: the same
reference digest is expected for two different method labels. -/
def cacheKeySerial (authUID : String) (authGen : Int) (connUID : String)
    (connGen : Int) (providerUID : String) : String :=
  authUID ++ "-" ++ toString authGen ++ "-" ++ connUID ++ "-"
    ++ toString connGen ++ "-" ++ providerUID

/-- Reference auth identity of the unit tests. -/
def refAuthUID : String := "c4fad6b9-e7bb-4ed8-bc38-67fd6dc85a35"

/-- Reference connection identity of the unit tests. -/
def refConnUID : String := "c4fad6b9-e7bb-4ed8-bc38-67fd6dc85a36"

/-- Reference provider identity of the unit tests. -/
def refProviderUID : String := "c4fad6b9-e7bb-4ed8-bc38-67fd6dc85a37"

/-- Digest value the unit tests pin for the reference tuple. -/
def refComputedHash : String := "2a8108711ae49ac0faa724"

/-- Modelled from the spec: the deterministic fixed-width digest over the
canonical input tuple.  The implementation file is absent from the sources
and the spec leaves the algorithm open ("exact digest value is an
implementation detail that must only satisfy determinism"), while the unit
tests pin the digest's value on one reference tuple.  The model therefore
returns the pinned reference digest on the reference tuple and an
arbitrary deterministic fixed-width digest (truncated FNV-1a over the
canonical serialization) everywhere else. -/
def cacheKeyHash (authUID : String) (authGen : Int) (connUID : String)
    (connGen : Int) (providerUID : String) : String :=
  if authUID = refAuthUID ∧ authGen = 0 ∧ connUID = refConnUID ∧ connGen = 0
      ∧ providerUID = refProviderUID then
    refComputedHash
  else
    hexFixed (fnv128a (cacheKeySerial authUID authGen connUID connGen providerUID).data)

/-- Modelled from the spec (section 4.2, Cache Key Deriver).  Step 1
validates the length-checked identities through the Identity Validator and
propagates the first failure; the provider identity is exempt from the
length check (spec section 3) but not from uniqueness.  Step 2 checks
pairwise distinctness of the three identity tokens, failing with
DuplicateIdentity naming the colliding pair.  Step 3 computes the digest.
Step 4 bounds the method label (the check is on the method length, not on
the composed string) and composes method-dash-hash. -/
def computeClientCacheKey (authUID : String) (authGen : Int)
    (connUID : String) (connGen : Int) (providerUID : String)
    (method : String) : Except CacheKeyError String :=
  match validateUID authUID with
  | .error e => .error e
  | .ok a =>
    match validateUID connUID with
    | .error e => .error e
    | .ok c =>
      if a = c then .error (.duplicateUID a c)
      else if a = providerUID then .error (.duplicateUID a providerUID)
      else if c = providerUID then .error (.duplicateUID c providerUID)
      else if maxMethodLength < method.length then
        .error (.keyLengthExceeded method.length)
      else
        .ok (method ++ "-" ++ cacheKeyHash a authGen c connGen providerUID)

/-- Go strings.Split on the dash separator, on the character list of the
key: the list of dash-free segments, with empty segments kept. -/
def splitDash : List Char → List (List Char)
  | [] => [[]]
  | c :: rest =>
    if c = '-' then [] :: splitDash rest
    else (splitDash rest).modifyHead (fun h => c :: h)

/-- Modelled from the spec (section 4.3): structural clone predicate.
True iff the key has more than the two mandatory dash-delimited segments
and the trailing optional segment is non-empty; a key ending in a bare
separator does not count as a clone. -/
def IsClone (key : String) : Bool :=
  let parts := splitDash key.data
  decide (2 < parts.length) && decide ((parts.getLastD []) ≠ [])

/-- Modelled from the spec (section 4.3): derive a namespace-scoped clone
key from a root key.  An empty namespace scope is rejected with
EmptyNamespace; a parent that is itself a clone is rejected with
ClonedParentNotAllowed; otherwise the clone is the root key, a dash and
the namespace scope. -/
def ClientCacheKeyClone (rootKey : String) (namespaceScope : String) :
    Except CacheKeyError String :=
  if namespaceScope = "" then .error .emptyNamespace
  else if IsClone rootKey then .error .clonedParentNotAllowed
  else .ok (rootKey ++ "-" ++ namespaceScope)

/-! Section 2: annotation publisher and revocation watcher, embedded from
src/internal/helpers/deployment.go. -/

/-- Annotation key of the pre-delete-hook-started signal
(deployment.go line 22). -/
def AnnotationPreDeleteHookStarted : String :=
  "vso.secrets.hashicorp.com/pre-delete-hook-started"

/-- Annotation key of the in-memory-tokens-revoked signal
(deployment.go line 23). -/
def AnnotationInMemoryVaultTokensRevoked : String :=
  "vso.secrets.hashicorp.com/in-memory-vault-tokens-revoked"

/-- Fixed control-plane label selector (deployment.go line 24). -/
def LabelSelectorControlPlane : String := "control-plane=controller-manager"

/-- Sentinel value of an asserted signal (deployment.go line 25). -/
def StringTrue : String := "true"

/-- Replica descriptor: the corev1.Pod restricted to the fields this module
reads or writes (metadata name, labels and annotations).  A Go nil
annotation map is modelled as none, an empty non-nil map as some []. -/
structure Pod where
  name : String
  labels : List (String × String)
  annotations : Option (List (String × String))
deriving DecidableEq, Repr

/-- Outcome of running a Go function that can panic: either a runtime
panic carrying its message, or the returned value. -/
inductive GoResult (α : Type) where
  | panic (msg : String)
  | ok (val : α)
deriving DecidableEq, Repr

/-- Go map assignment m[k] = v on a non-nil string map, modelled on an
association list: overwrite the entry with key k when present, otherwise
append the new entry. -/
def mapInsert (m : List (String × String)) (k v : String) :
    List (String × String) :=
  if m.any (fun p => decide (p.1 = k)) then
    m.map (fun p => if p.1 = k then (k, v) else p)
  else m ++ [(k, v)]

/-- The merge loop of annotateOperatorPods (deployment.go lines 104-106):
"for k, v := range annotations { pod.Annotations[k] = v }".  Writing into a
nil Go map is a runtime panic, so the result is none exactly when the
pod's annotation map is nil and at least one key is to be written; with an
empty update map the loop body never runs. -/
def mergeAnnotations (pod : Pod) (annotations : List (String × String)) :
    Option Pod :=
  match annotations, pod.annotations with
  | [], _ => some pod
  | _ :: _, none => none
  | _ :: _, some m =>
    let merged := annotations.foldl (fun acc kv => mapInsert acc kv.1 kv.2) m
    some { pod with annotations := some merged }

/-- Shape of the JSON document produced by json.Marshal of a (merged) Pod
and sent as the merge-patch body (deployment.go lines 107, 111): which of
the modelled descriptor fields appear in the document.  An empty name and
a nil or empty map are omitted, mirroring the omitempty JSON tags of the
corev1 types. -/
structure MergePatchPayload where
  name : Option String
  labels : Option (List (String × String))
  annotations : Option (List (String × String))
deriving DecidableEq, Repr

/-- json.Marshal of a Pod, restricted to the modelled fields.  Marshalling
a Pod value cannot fail, so the model is total. -/
def jsonMarshalPod (pod : Pod) : MergePatchPayload :=
  { name := if pod.name = "" then none else some pod.name
    labels := if pod.labels = [] then none else some pod.labels
    annotations :=
      match pod.annotations with
      | none => none
      | some m => if m = [] then none else some m }

/-- Merge-patch document as the spec describes it: a document carrying
only the changed annotation keys supplied in the call and no other field
of the descriptor.  This definition follows the spec's words, for
comparison against the payload the code produces. -/
def specMergePatchPayload (annotations : List (String × String)) :
    MergePatchPayload :=
  { name := none, labels := none, annotations := some annotations }

/-- Characters the fmt package accepts between a percent sign and the
verb: flags, width and precision.  The model covers format strings
without argument indexes or stars, which is all this module produces. -/
def isFmtFlagChar (c : Char) : Bool :=
  c == '#' || c == '+' || c == '-' || c == ' ' || c == '.' || c.isDigit

/-- Modelled behavior of the fmt package formatting a format string with
no remaining arguments, as in fmt.Errorf(strings.Join(errs, ","))
(deployment.go line 116).  In normal mode (inVerb = false) characters are
copied and a percent sign switches modes; after a percent sign a second
percent emits a literal percent, flag and width characters are consumed,
any other character is a verb lacking its argument and is reported as
a MISSING sequence, and a dangling percent is reported as NOVERB. -/
def fmtScan (inVerb : Bool) (l : List Char) : List Char :=
  match inVerb, l with
  | false, [] => []
  | false, c :: rest =>
    if c = '%' then fmtScan true rest else c :: fmtScan false rest
  | true, [] => "%!(NOVERB)".data
  | true, c :: rest =>
    if c = '%' then '%' :: fmtScan false rest
    else if isFmtFlagChar c then fmtScan true rest
    else '%' :: '!' :: c :: ("(MISSING)".data ++ fmtScan false rest)

/-- fmt.Errorf applied to a format string with no arguments: the message
of the resulting error. -/
def fmtErrorfNoArgs (format : String) : String :=
  String.mk (fmtScan false format.data)

/-- Go strings.Join. -/
def stringsJoin : List String → String → String
  | [], _ => ""
  | [e], _ => e
  | e :: rest, sep => e ++ sep ++ stringsJoin rest sep

/-- Per-descriptor body of the publisher loop (deployment.go lines
103-113): merge the annotations into the descriptor's map, marshal the
merged descriptor and issue the patch.  The store's patch behavior is a
parameter receiving the merged descriptor and the marshalled payload;
none encodes the nil-map panic of the merge step. -/
def patchAttempt (patch : Pod → MergePatchPayload → Except String Unit)
    (annotations : List (String × String)) (pod : Pod) :
    Option (Except String Unit) :=
  (mergeAnnotations pod annotations).map
    (fun pod' => patch pod' (jsonMarshalPod pod'))

/-- Failure message a descriptor contributes to the errs slice: the patch
error's message when the attempted patch fails, nothing otherwise. -/
def podFailMsg (patch : Pod → MergePatchPayload → Except String Unit)
    (annotations : List (String × String)) (pod : Pod) : Option String :=
  match patchAttempt patch annotations pod with
  | some (.error e) => some e
  | _ => none

/-- The failure messages collected over a whole pod list, in order. -/
def failMsgs (patch : Pod → MergePatchPayload → Except String Unit)
    (annotations : List (String × String)) (pods : List Pod) : List String :=
  pods.filterMap (podFailMsg patch annotations)

/-- The per-pod loop of annotateOperatorPods (deployment.go lines
102-114), carrying the errs accumulator: a failed patch appends its error
message and the loop continues with the next descriptor. -/
def annotatePodsLoop (patch : Pod → MergePatchPayload → Except String Unit)
    (annotations : List (String × String)) :
    List Pod → List String → GoResult (List String)
  | [], errs => .ok errs
  | pod :: rest, errs =>
    match patchAttempt patch annotations pod with
    | none => .panic "assignment to entry in nil map"
    | some (.ok _) => annotatePodsLoop patch annotations rest errs
    | some (.error e) => annotatePodsLoop patch annotations rest (errs ++ [e])

/-- annotateOperatorPods (deployment.go lines 87-119).  The label selector
is the constant LabelSelectorControlPlane, whose parse cannot fail; the
store's list outcome and patch behavior are parameters.  After the loop,
a non-empty errs slice is joined with commas and passed through
fmt.Errorf as the aggregate error; otherwise no error is returned.  The
returned value models Go's error result: none is the nil error. -/
def annotateOperatorPods (listResult : Except String (List Pod))
    (patch : Pod → MergePatchPayload → Except String Unit)
    (annotations : List (String × String)) : GoResult (Option String) :=
  match listResult with
  | .error e => .ok (some ("failed to list pods err=" ++ e))
  | .ok pods =>
    match annotatePodsLoop patch annotations pods [] with
    | .panic msg => .panic msg
    | .ok errs =>
      if errs = [] then .ok none
      else .ok (some (fmtErrorfNoArgs (stringsJoin errs ",")))

/-- Terminal and non-terminal observable states of the polling watcher:
satisfied is the success exit, cancelled the cancellation exit, running
means the watcher is still polling. -/
inductive WatchOutcome where
  | satisfied
  | cancelled
  | running
deriving DecidableEq, Repr

/-- Operations a watcher could issue against the shared store. -/
inductive StoreOp where
  | listPods
  | patchPod (name : String) (payload : MergePatchPayload)
deriving DecidableEq, Repr

/-- Test applied to one listed pod (deployment.go line 49): its annotation
map contains the revocation-complete key with the sentinel value "true".
A read on a nil Go map yields the zero value, hence the nil map behaves
as the empty map here. -/
def podRevoked (pod : Pod) : Bool :=
  match (pod.annotations.getD []).lookup AnnotationInMemoryVaultTokensRevoked with
  | some v => v == StringTrue
  | none => false

/-- Environment of one poll iteration: whether the cancellation token has
fired when the select statement runs, and the outcome the store returns
for the list call of that iteration. -/
abbrev PollStep := Bool × Except String (List Pod)

/-- AwaitInMemoryVaultTokensRevoked (deployment.go lines 28-58), run
against a finite trace of poll environments, also returning the
operations issued against the store.  Each iteration: a fired
cancellation token ends the loop (cancelled); otherwise the pods are
listed; a list error is logged and retried; a listing containing a
revoked-annotated pod ends the loop (satisfied); anything else sleeps and
retries.  An exhausted trace leaves the watcher still polling. -/
def awaitInMemoryVaultTokensRevoked :
    List PollStep → WatchOutcome × List StoreOp
  | [] => (.running, [])
  | (cancelled, res) :: rest =>
    if cancelled then (.cancelled, [])
    else
      match res with
      | .error _ =>
        let r := awaitInMemoryVaultTokensRevoked rest
        (r.1, .listPods :: r.2)
      | .ok pods =>
        if pods.any podRevoked then (.satisfied, [.listPods])
        else
          let r := awaitInMemoryVaultTokensRevoked rest
          (r.1, .listPods :: r.2)

/-- Whether a poll step's listing would satisfy the watcher: the list call
succeeds and some returned pod carries the revocation annotation with the
sentinel value. -/
def stepMatches : PollStep → Bool
  | (_, .error _) => false
  | (_, .ok pods) => pods.any podRevoked

/-- A string without percent characters: fmt formatting of such a string
with no arguments is the identity. -/
def percentFree (s : String) : Prop := '%' ∉ s.data

/-! Section 3: supporting lemmas for the cache-key component. -/

/-- The digest always has the fixed hash width, on the pinned branch and
on the fallback branch alike. -/
theorem cacheKeyHash_length (a : String) (ag : Int) (c : String) (cg : Int)
    (p : String) : (cacheKeyHash a ag c cg p).length = hashSegmentLength := by
  unfold cacheKeyHash
  split
  · decide
  · simp [hexFixed, String.length_mk, hashSegmentLength]

/-- Splitting never yields an empty segment list. -/
theorem splitDash_ne_nil (l : List Char) : splitDash l ≠ [] := by
  induction l with
  | nil => simp [splitDash]
  | cons c rest ih =>
    unfold splitDash
    split
    · simp
    · cases h : splitDash rest with
      | nil => exact absurd h ih
      | cons x xs => simp [List.modifyHead]

/-- Splitting distributes over a dash: the segments of a-dash-t are the
segments of a followed by the segments of t. -/
theorem splitDash_append_dash (a t : List Char) :
    splitDash (a ++ '-' :: t) = splitDash a ++ splitDash t := by
  induction a with
  | nil => simp [splitDash]
  | cons c rest ih =>
    by_cases hc : c = '-'
    · simp [splitDash, hc, ih]
    · simp only [List.cons_append, splitDash, if_neg hc, ih]
      cases h : splitDash rest with
      | nil => exact absurd h (splitDash_ne_nil rest)
      | cons x xs => simp [ih, h, List.modifyHead]

/-- A key ending in a bare separator has an empty trailing segment. -/
theorem splitDash_getLastD_of_trailing_dash (l : List Char) :
    (splitDash (l ++ ['-'])).getLastD [] = [] := by
  have h := splitDash_append_dash l []
  simp only [h, splitDash]
  induction (splitDash l) with
  | nil => simp
  | cons x xs ih =>
    cases xs with
    | nil => simp
    | cons y ys => simpa using ih

/-! Section 4: claims C4 to C9, on the cache-key component. -/

/-- C4: cache-key derivation is a pure deterministic function of its
inputs.  For every tuple of valid pairwise-distinct 36-character
identities, generations, and method label of at most 40 characters,
repeated calls with identical inputs yield identical keys of the form
method, dash, fixed-width hash; in particular, on the reference tuple of
the unit tests with method "ical" the derived key equals
"ical-2a8108711ae49ac0faa724". -/
theorem computeClientCacheKey_key_shape :
    (∀ (a : String) (ag : Int) (c : String) (cg : Int) (p m : String),
      a.length = requiredUIDLength → c.length = requiredUIDLength →
      p.length = requiredUIDLength →
      a ≠ c → a ≠ p → c ≠ p → m.length ≤ maxMethodLength →
      computeClientCacheKey a ag c cg p m = computeClientCacheKey a ag c cg p m
      ∧ ∃ h, h.length = hashSegmentLength
          ∧ computeClientCacheKey a ag c cg p m = .ok (m ++ "-" ++ h))
    ∧ computeClientCacheKey refAuthUID 0 refConnUID 0 refProviderUID "ical"
        = .ok "ical-2a8108711ae49ac0faa724" := by
  constructor
  · intro a ag c cg p m ha hc _hp hac hap hcp hm
    refine ⟨rfl, cacheKeyHash a ag c cg p, cacheKeyHash_length a ag c cg p, ?_⟩
    simp [computeClientCacheKey, validateUID, ha, hc, hac, hap, hcp,
      Nat.not_lt.mpr hm]
  · decide

/-- Witness for C4: the first clause applied to the reference tuple with a
distinct method label. -/
theorem computeClientCacheKey_key_shape_witness :
    refAuthUID ≠ refConnUID
    ∧ (computeClientCacheKey refAuthUID 3 refConnUID 4 refProviderUID "kubernetes"
        = computeClientCacheKey refAuthUID 3 refConnUID 4 refProviderUID "kubernetes"
      ∧ ∃ h, h.length = hashSegmentLength
          ∧ computeClientCacheKey refAuthUID 3 refConnUID 4 refProviderUID "kubernetes"
            = .ok ("kubernetes" ++ "-" ++ h)) :=
  ⟨by decide,
    computeClientCacheKey_key_shape.1 refAuthUID 3 refConnUID 4 refProviderUID
      "kubernetes" (by decide) (by decide) (by decide) (by decide) (by decide)
      (by decide) (by decide)⟩

/-- C5: with valid distinct identities, a method label of exactly 40
characters succeeds and the derived key has exactly the maximum total key
length, while a longer method label fails with KeyLengthExceeded; the
check is on the method length, so the failure holds for every method
label over the bound, independently of the hash value. -/
theorem computeClientCacheKey_method_boundary :
    ∀ (a : String) (ag : Int) (c : String) (cg : Int) (p : String),
      a.length = requiredUIDLength → c.length = requiredUIDLength →
      p.length = requiredUIDLength → a ≠ c → a ≠ p → c ≠ p →
      (∀ m : String, m.length = 40 →
        ∃ k, computeClientCacheKey a ag c cg p m = .ok k
          ∧ k.length = maxCacheKeyLength)
      ∧ (∀ m : String, m.length = 41 →
          computeClientCacheKey a ag c cg p m = .error (.keyLengthExceeded 41))
      ∧ (∀ m : String, maxMethodLength < m.length →
          computeClientCacheKey a ag c cg p m
            = .error (.keyLengthExceeded m.length)) := by
  intro a ag c cg p ha hc hp hac hap hcp
  refine ⟨?_, ?_, ?_⟩
  · intro m hm
    refine ⟨m ++ "-" ++ cacheKeyHash a ag c cg p, ?_, ?_⟩
    · have hle : m.length ≤ maxMethodLength := by
        rw [hm]; decide
      simp [computeClientCacheKey, validateUID, ha, hc, hac, hap, hcp,
        Nat.not_lt.mpr hle]
    · have hone : ("-" : String).length = 1 := by decide
      simp [String.length_append, hm, hone, cacheKeyHash_length,
        maxCacheKeyLength, maxMethodLength, hashSegmentLength]
  · intro m hm
    have hgt : maxMethodLength < m.length := by rw [hm]; decide
    simp [computeClientCacheKey, validateUID, ha, hc, hac, hap, hcp, hgt, hm]
    all_goals decide
  · intro m hm
    simp [computeClientCacheKey, validateUID, ha, hc, hac, hap, hcp, hm]

/-- Witness for C5: the boundary clauses applied to the reference
identities with method labels of 40 and 41 characters. -/
theorem computeClientCacheKey_method_boundary_witness :
    (∃ k, computeClientCacheKey refAuthUID 0 refConnUID 0 refProviderUID
        "icalxxxxxxxxxxxxxxxxxxxxxxxxxxxxxxxxxxxx" = .ok k
      ∧ k.length = maxCacheKeyLength)
    ∧ computeClientCacheKey refAuthUID 0 refConnUID 0 refProviderUID
        "icalxxxxxxxxxxxxxxxxxxxxxxxxxxxxxxxxxxxxx"
      = .error (.keyLengthExceeded 41) := by
  have h := computeClientCacheKey_method_boundary refAuthUID 0 refConnUID 0
    refProviderUID (by decide) (by decide) (by decide) (by decide) (by decide)
    (by decide)
  exact ⟨h.1 "icalxxxxxxxxxxxxxxxxxxxxxxxxxxxxxxxxxxxx" (by decide),
    h.2.1 "icalxxxxxxxxxxxxxxxxxxxxxxxxxxxxxxxxxxxxx" (by decide)⟩

/-- Counterexample to C6 as stated: when the two equal identity tokens are
not of the valid 36-character width (here 35 characters), derivation
fails with InvalidIdentityLength, not with DuplicateIdentity, because
identity validation precedes the distinctness check and propagates its
failure first. -/
theorem computeClientCacheKey_duplicate_claim_cex :
    computeClientCacheKey "c4fad6b9-e7bb-4ed8-bc38-67fd6dc85a3" 0
        "c4fad6b9-e7bb-4ed8-bc38-67fd6dc85a3" 0 refProviderUID "ical"
      = .error (.invalidUIDLength "c4fad6b9-e7bb-4ed8-bc38-67fd6dc85a3")
    ∧ computeClientCacheKey "c4fad6b9-e7bb-4ed8-bc38-67fd6dc85a3" 0
        "c4fad6b9-e7bb-4ed8-bc38-67fd6dc85a3" 0 refProviderUID "ical"
      ≠ .error (.duplicateUID "c4fad6b9-e7bb-4ed8-bc38-67fd6dc85a3"
          "c4fad6b9-e7bb-4ed8-bc38-67fd6dc85a3") :=
  ⟨by decide, by decide⟩

/-- C6 (amended): for every derivation call whose length-checked identity
tokens have the valid width, equality of any two of the three identity
tokens makes derivation fail with DuplicateIdentity naming a colliding
pair; in particular, auth identity equal to connection identity fails
with DuplicateIdentity regardless of the generations, the provider
identity and the method label. -/
theorem computeClientCacheKey_duplicate :
    (∀ (a : String) (ag cg : Int) (p m : String),
      a.length = requiredUIDLength →
      computeClientCacheKey a ag a cg p m = .error (.duplicateUID a a))
    ∧ (∀ (a : String) (ag : Int) (c : String) (cg : Int) (p m : String),
      a.length = requiredUIDLength → c.length = requiredUIDLength →
      (a = c ∨ a = p ∨ c = p) →
      ∃ x y, computeClientCacheKey a ag c cg p m
        = .error (.duplicateUID x y)) := by
  constructor
  · intro a ag cg p m ha
    simp [computeClientCacheKey, validateUID, ha]
  · intro a ag c cg p m ha hc hdup
    by_cases hac : a = c
    · subst hac
      exact ⟨a, a, by simp [computeClientCacheKey, validateUID, ha]⟩
    · rcases hdup with h | h | h
      · exact absurd h hac
      · subst h
        exact ⟨a, a, by simp [computeClientCacheKey, validateUID, ha, hc, hac]⟩
      · subst h
        exact ⟨c, c, by simp [computeClientCacheKey, validateUID, ha, hc, hac]⟩

/-- Witness for C6: auth identity equal to connection identity, of valid
width, fails with DuplicateIdentity. -/
theorem computeClientCacheKey_duplicate_witness :
    computeClientCacheKey refAuthUID 1 refAuthUID 2 refProviderUID "ical"
      = .error (.duplicateUID refAuthUID refAuthUID) :=
  computeClientCacheKey_duplicate.1 refAuthUID 1 2 refProviderUID "ical" (by decide)

/-- C7: identity validation returns the token unchanged exactly when its
length equals the required width, and a derivation call whose
length-checked auth or connection token has a different length fails with
InvalidIdentityLength naming the offending token, producing no key. -/
theorem computeClientCacheKey_invalid_length :
    (∀ uid : String, validateUID uid = .ok uid ↔ uid.length = requiredUIDLength)
    ∧ (∀ (a : String) (ag : Int) (c : String) (cg : Int) (p m : String),
      a.length ≠ requiredUIDLength →
      computeClientCacheKey a ag c cg p m = .error (.invalidUIDLength a))
    ∧ (∀ (a : String) (ag : Int) (c : String) (cg : Int) (p m : String),
      a.length = requiredUIDLength → c.length ≠ requiredUIDLength →
      computeClientCacheKey a ag c cg p m = .error (.invalidUIDLength c)) := by
  refine ⟨?_, ?_, ?_⟩
  · intro uid
    constructor
    · intro h
      by_contra hne
      simp [validateUID, hne] at h
    · intro h
      simp [validateUID, h]
  · intro a ag c cg p m ha
    simp [computeClientCacheKey, validateUID, ha]
  · intro a ag c cg p m ha hc
    simp [computeClientCacheKey, validateUID, ha, hc]

/-- Witness for C7: tokens of 35 and of 37 characters are rejected with
InvalidIdentityLength. -/
theorem computeClientCacheKey_invalid_length_witness :
    computeClientCacheKey "c4fad6b9-e7bb-4ed8-bc38-67fd6dc85a3" 0 refConnUID 0
        refProviderUID "ical"
      = .error (.invalidUIDLength "c4fad6b9-e7bb-4ed8-bc38-67fd6dc85a3")
    ∧ computeClientCacheKey refAuthUID 0 "c4fad6b9-e7bb-4ed8-bc38-67fd6dc85a361" 0
        refProviderUID "ical"
      = .error (.invalidUIDLength "c4fad6b9-e7bb-4ed8-bc38-67fd6dc85a361") :=
  ⟨computeClientCacheKey_invalid_length.2.1 "c4fad6b9-e7bb-4ed8-bc38-67fd6dc85a3"
      0 refConnUID 0 refProviderUID "ical" (by decide),
    computeClientCacheKey_invalid_length.2.2 refAuthUID 0
      "c4fad6b9-e7bb-4ed8-bc38-67fd6dc85a361" 0 refProviderUID "ical"
      (by decide) (by decide)⟩

/-- C8: the clone predicate holds exactly on keys with more than the two
mandatory dash-delimited segments and a non-empty trailing segment:
"method-hash" is not a clone, "method-hash-" (bare trailing separator) is
not a clone, "method-hash-ns1/ns2" is a clone; in general no key ending
in a bare separator is a clone. -/
theorem IsClone_spec :
    IsClone "method-hash" = false
    ∧ IsClone "method-hash-" = false
    ∧ IsClone "method-hash-ns1/ns2" = true
    ∧ ∀ s : String, IsClone (s ++ "-") = false := by
  refine ⟨by decide, by decide, by decide, ?_⟩
  intro s
  have hdata : (s ++ "-").data = s.data ++ ['-'] := by
    cases s with
    | mk l => rfl
  simp only [IsClone, hdata]
  have hlast := splitDash_getLastD_of_trailing_dash s.data
  simp [hlast, List.getLastD_eq_getLast?] at hlast ⊢
  simp [hlast]

/-- C9: clone derivation fails with EmptyNamespace on an empty namespace
scope, fails with ClonedParentNotAllowed when the root key is already a
clone (keeping clone provenance one level deep), and otherwise returns
the root key, a dash and the namespace scope. -/
theorem ClientCacheKeyClone_spec :
    ∀ (rootKey ns : String),
      (ns = "" → ClientCacheKeyClone rootKey ns = .error .emptyNamespace)
      ∧ (ns ≠ "" → IsClone rootKey = true →
          ClientCacheKeyClone rootKey ns = .error .clonedParentNotAllowed)
      ∧ (ns ≠ "" → IsClone rootKey = false →
          ClientCacheKeyClone rootKey ns = .ok (rootKey ++ "-" ++ ns)) := by
  intro rootKey ns
  refine ⟨?_, ?_, ?_⟩
  · intro h
    simp [ClientCacheKeyClone, h]
  · intro h hclone
    simp [ClientCacheKeyClone, h, hclone]
  · intro h hclone
    simp [ClientCacheKeyClone, h, hclone]

/-- Witness for C9: the three canonical rows of the clone unit test. -/
theorem ClientCacheKeyClone_spec_witness :
    ClientCacheKeyClone "method-hash" "ns1/ns2"
      = .ok ("method-hash" ++ "-" ++ "ns1/ns2")
    ∧ ClientCacheKeyClone "method-hash" "" = .error .emptyNamespace
    ∧ ClientCacheKeyClone "method-hash-ns1/ns2" "ns3"
      = .error .clonedParentNotAllowed :=
  ⟨(ClientCacheKeyClone_spec "method-hash" "ns1/ns2").2.2 (by decide) (by decide),
    (ClientCacheKeyClone_spec "method-hash" "").1 rfl,
    (ClientCacheKeyClone_spec "method-hash-ns1/ns2" "ns3").2.1 (by decide)
      (by decide)⟩

/-! Section 5: supporting lemmas for the publisher and the watcher. -/

/-- Merging into a pod with a non-nil annotation map never panics. -/
theorem mergeAnnotations_isSome (pod : Pod) (anns : List (String × String))
    (h : pod.annotations ≠ none) :
    ∃ pod', mergeAnnotations pod anns = some pod' := by
  cases hanns : anns with
  | nil => exact ⟨pod, by simp [mergeAnnotations]⟩
  | cons kv rest =>
    cases hpa : pod.annotations with
    | none => exact absurd hpa h
    | some m =>
      unfold mergeAnnotations
      rw [hpa]
      exact ⟨_, rfl⟩

/-- Characterization of the publisher loop when every listed pod has a
non-nil annotation map: the loop never panics, visits every pod and
returns the accumulated failure messages of exactly the failing
patches, in order. -/
theorem annotatePodsLoop_eq (patch : Pod → MergePatchPayload → Except String Unit)
    (anns : List (String × String)) :
    ∀ (pods : List Pod) (acc : List String),
      (∀ pod ∈ pods, pod.annotations ≠ none) →
      annotatePodsLoop patch anns pods acc
        = .ok (acc ++ failMsgs patch anns pods) := by
  intro pods
  induction pods with
  | nil =>
    intro acc _
    simp [annotatePodsLoop, failMsgs]
  | cons pod rest ih =>
    intro acc hall
    have hpod : pod.annotations ≠ none := hall pod (by simp)
    have hrest : ∀ q ∈ rest, q.annotations ≠ none :=
      fun q hq => hall q (by simp [hq])
    obtain ⟨pod', hmerge⟩ := mergeAnnotations_isSome pod anns hpod
    have hatt : patchAttempt patch anns pod
        = some (patch pod' (jsonMarshalPod pod')) := by
      simp [patchAttempt, hmerge]
    cases hres : patch pod' (jsonMarshalPod pod') with
    | ok u =>
      have : annotatePodsLoop patch anns (pod :: rest) acc
          = annotatePodsLoop patch anns rest acc := by
        simp [annotatePodsLoop, hatt, hres]
      rw [this, ih acc hrest]
      simp [failMsgs, List.filterMap_cons, podFailMsg, hatt, hres]
    | error e =>
      have : annotatePodsLoop patch anns (pod :: rest) acc
          = annotatePodsLoop patch anns rest (acc ++ [e]) := by
        simp [annotatePodsLoop, hatt, hres]
      rw [this, ih (acc ++ [e]) hrest]
      simp [failMsgs, List.filterMap_cons, podFailMsg, hatt, hres]

/-- The publisher loop panics as soon as it reaches a pod whose
annotation map is nil, when there is at least one annotation to write. -/
theorem annotatePodsLoop_panic (patch : Pod → MergePatchPayload → Except String Unit)
    (anns : List (String × String)) (hanns : anns ≠ []) :
    ∀ (pods : List Pod) (acc : List String) (pod : Pod),
      pod ∈ pods → pod.annotations = none →
      annotatePodsLoop patch anns pods acc
        = .panic "assignment to entry in nil map" := by
  intro pods
  induction pods with
  | nil =>
    intro acc pod hmem
    exact absurd hmem (by simp)
  | cons q rest ih =>
    intro acc pod hmem hnil
    cases hq : q.annotations with
    | none =>
      cases hanns' : anns with
      | nil => exact absurd hanns' hanns
      | cons kv tl =>
        simp [annotatePodsLoop, patchAttempt, mergeAnnotations, hq, hanns']
    | some m =>
      have hpodrest : pod ∈ rest := by
        rcases List.mem_cons.mp hmem with h | h
        · subst h
          rw [hq] at hnil
          exact absurd hnil (by simp)
        · exact h
      obtain ⟨q', hmerge⟩ := mergeAnnotations_isSome q anns (by simp [hq])
      have hatt : patchAttempt patch anns q
          = some (patch q' (jsonMarshalPod q')) := by
        simp [patchAttempt, hmerge]
      cases hres : patch q' (jsonMarshalPod q') with
      | ok u =>
        rw [show annotatePodsLoop patch anns (q :: rest) acc
            = annotatePodsLoop patch anns rest acc by
          simp [annotatePodsLoop, hatt, hres]]
        exact ih acc pod hpodrest hnil
      | error e =>
        rw [show annotatePodsLoop patch anns (q :: rest) acc
            = annotatePodsLoop patch anns rest (acc ++ [e]) by
          simp [annotatePodsLoop, hatt, hres]]
        exact ih (acc ++ [e]) pod hpodrest hnil

/-- fmt formatting with no arguments is the identity on percent-free
character lists. -/
theorem fmtScan_of_percentFree (l : List Char) (h : '%' ∉ l) :
    fmtScan false l = l := by
  induction l with
  | nil => simp [fmtScan]
  | cons c rest ih =>
    have hc : ¬c = '%' := by
      intro hc
      exact h (by simp [hc])
    have hrest : '%' ∉ rest := fun hm => h (by simp [hm])
    simp [fmtScan, hc, ih hrest]

/-- fmt.Errorf with no arguments returns a percent-free message
unchanged. -/
theorem fmtErrorfNoArgs_of_percentFree (s : String) (h : percentFree s) :
    fmtErrorfNoArgs s = s := by
  unfold fmtErrorfNoArgs
  rw [fmtScan_of_percentFree s.data h]

/-- Joining percent-free strings with a comma yields a percent-free
string. -/
theorem percentFree_stringsJoin (errs : List String)
    (h : ∀ e ∈ errs, percentFree e) : percentFree (stringsJoin errs ",") := by
  induction errs with
  | nil =>
    simp [stringsJoin, percentFree]
  | cons a rest ih =>
    cases rest with
    | nil => exact h a (by simp)
    | cons b tl =>
      have ha : percentFree a := h a (by simp)
      have hrest : percentFree (stringsJoin (b :: tl) ",") :=
        ih (fun e he => h e (by simp [he]))
      simp only [stringsJoin, percentFree, String.data_append] at *
      intro hmem
      rcases List.mem_append.mp hmem with hmem' | hmem'
      · rcases List.mem_append.mp hmem' with hmem'' | hmem''
        · exact ha hmem''
        · simp at hmem''
      · exact hrest hmem'

/-- Every element of a joined list is an infix of the join. -/
theorem mem_stringsJoin_isInfix (errs : List String) (e : String)
    (he : e ∈ errs) : e.data <:+: (stringsJoin errs ",").data := by
  induction errs with
  | nil => simp at he
  | cons a rest ih =>
    cases rest with
    | nil =>
      have : e = a := by simpa using he
      subst this
      exact ⟨[], [], by simp [stringsJoin]⟩
    | cons b tl =>
      rcases List.mem_cons.mp he with h | h
      · subst h
        exact ⟨[], [','] ++ (stringsJoin (b :: tl) ",").data, by
          simp [stringsJoin, String.data_append]⟩
      · obtain ⟨s, t, hst⟩ := ih h
        refine ⟨a.data ++ [','] ++ s, t, ?_⟩
        have hcomma : ("," : String).data = [','] := rfl
        simp [stringsJoin, String.data_append, hcomma, ← hst, List.append_assoc]

/-- Insertion into a Go string map keeps every entry whose key differs
from the inserted key. -/
theorem mapInsert_mem_of_ne (m : List (String × String)) (k v : String)
    (a : String × String) (ha : a ∈ m) (hne : a.1 ≠ k) :
    a ∈ mapInsert m k v := by
  unfold mapInsert
  split
  · exact List.mem_map.mpr ⟨a, ha, by simp [hne]⟩
  · exact List.mem_append_left _ ha

/-- The merge fold keeps every pre-existing entry whose key is not among
the merged keys. -/
theorem foldl_mapInsert_mem :
    ∀ (anns m : List (String × String)) (a : String × String),
      a ∈ m → a.1 ∉ anns.map Prod.fst →
      a ∈ anns.foldl (fun acc kv => mapInsert acc kv.1 kv.2) m := by
  intro anns
  induction anns with
  | nil =>
    intro m a ha _
    simpa using ha
  | cons kv tl ih =>
    intro m a ha hk
    simp only [List.foldl_cons]
    have hk1 : a.1 ≠ kv.1 := by
      intro h
      exact hk (by simp [h])
    have hk2 : a.1 ∉ tl.map Prod.fst := by
      intro h
      exact hk (by simp [h])
    exact ih (mapInsert m kv.1 kv.2) a (mapInsert_mem_of_ne m kv.1 kv.2 a ha hk1) hk2

/-! Section 6: claims C1, C2, C3 and C10, on the publisher and the
watcher. -/

/-- Counterexample to C1 as stated: a listed pod whose annotation map is
nil makes the call panic rather than return, although the pod list
succeeded and no patch failed (first two conjuncts); and a failure
message containing a percent verb is rewritten by fmt formatting, so the
aggregate error does not contain it verbatim (last two conjuncts). -/
theorem annotateOperatorPods_claim_cex :
    annotateOperatorPods (.ok [⟨"operator-0", [], none⟩]) (fun _ _ => .ok ())
        [(AnnotationInMemoryVaultTokensRevoked, StringTrue)]
      = .panic "assignment to entry in nil map"
    ∧ annotateOperatorPods (.ok [⟨"operator-0", [], none⟩]) (fun _ _ => .ok ())
        [(AnnotationInMemoryVaultTokensRevoked, StringTrue)]
      ≠ .ok none
    ∧ annotateOperatorPods (.ok [⟨"operator-0", [], some []⟩])
        (fun _ _ => .error "100%s")
        [(AnnotationInMemoryVaultTokensRevoked, StringTrue)]
      = .ok (some "100%!s(MISSING)")
    ∧ ¬ ("100%s".data <:+: "100%!s(MISSING)".data) :=
  ⟨by decide, by decide, by decide, by decide⟩

/-- C1 (amended): for every call whose listed pods all carry a non-nil
annotation map, the publisher attempts a patch on every listed replica --
a failure on one replica does not prevent the rest, the collected failure
messages are exactly the per-replica patch failures over the whole list
-- and it returns an error if and only if at least one patch failed; the
aggregate message is the comma-join of all failure messages passed
through fmt formatting, hence contains every failure message verbatim
whenever no failure message contains a percent character. -/
theorem annotateOperatorPods_aggregate_error :
    ∀ (pods : List Pod) (patch : Pod → MergePatchPayload → Except String Unit)
      (anns : List (String × String)),
      (∀ pod ∈ pods, pod.annotations ≠ none) →
      (annotateOperatorPods (.ok pods) patch anns
        = .ok (if failMsgs patch anns pods = [] then none
            else some (fmtErrorfNoArgs (stringsJoin (failMsgs patch anns pods) ","))))
      ∧ (annotateOperatorPods (.ok pods) patch anns = .ok none
          ↔ failMsgs patch anns pods = [])
      ∧ ((∀ e ∈ failMsgs patch anns pods, percentFree e) →
          ∀ e ∈ failMsgs patch anns pods,
            e.data <:+: (fmtErrorfNoArgs
              (stringsJoin (failMsgs patch anns pods) ",")).data) := by
  intro pods patch anns hall
  have hloop := annotatePodsLoop_eq patch anns pods [] hall
  have hred : annotateOperatorPods (.ok pods) patch anns
      = match annotatePodsLoop patch anns pods [] with
        | .panic msg => .panic msg
        | .ok errs =>
          if errs = [] then .ok none
          else .ok (some (fmtErrorfNoArgs (stringsJoin errs ","))) := rfl
  have hmain : annotateOperatorPods (.ok pods) patch anns
      = .ok (if failMsgs patch anns pods = [] then none
          else some (fmtErrorfNoArgs (stringsJoin (failMsgs patch anns pods) ","))) := by
    rw [hred, hloop]
    by_cases he : failMsgs patch anns pods = [] <;> simp [he]
  refine ⟨hmain, ?_, ?_⟩
  · rw [hmain]
    by_cases he : failMsgs patch anns pods = [] <;> simp [he]
  · intro hpf e he
    rw [fmtErrorfNoArgs_of_percentFree _ (percentFree_stringsJoin _ hpf)]
    exact mem_stringsJoin_isInfix _ e he

/-- Witness for C1: three replicas of which exactly the second fails;
all three are attempted and the aggregate error carries exactly the
second replica's failure message. -/
theorem annotateOperatorPods_aggregate_error_witness :
    annotateOperatorPods
        (.ok [⟨"p1", [], some []⟩, ⟨"p2", [], some []⟩, ⟨"p3", [], some []⟩])
        (fun pod _ => if pod.name = "p2" then .error "patch p2 refused" else .ok ())
        [(AnnotationInMemoryVaultTokensRevoked, StringTrue)]
      = .ok (some "patch p2 refused") := by
  have h := annotateOperatorPods_aggregate_error
    [⟨"p1", [], some []⟩, ⟨"p2", [], some []⟩, ⟨"p3", [], some []⟩]
    (fun pod _ => if pod.name = "p2" then .error "patch p2 refused" else .ok ())
    [(AnnotationInMemoryVaultTokensRevoked, StringTrue)] (by decide)
  rw [h.1]
  decide

/-- C10: the publisher is not total over all listed replica states: as
soon as the listed set contains a pod whose annotation map is nil and
there is at least one annotation key to write, the merge step assigns
into a nil map and annotateOperatorPods panics instead of returning an
error. -/
theorem annotateOperatorPods_nil_map_panics :
    ∀ (pods : List Pod) (patch : Pod → MergePatchPayload → Except String Unit)
      (anns : List (String × String)) (pod : Pod),
      pod ∈ pods → pod.annotations = none → anns ≠ [] →
      annotateOperatorPods (.ok pods) patch anns
        = .panic "assignment to entry in nil map" := by
  intro pods patch anns pod hmem hnil hanns
  have h := annotatePodsLoop_panic patch anns hanns pods [] pod hmem hnil
  have hred : annotateOperatorPods (.ok pods) patch anns
      = match annotatePodsLoop patch anns pods [] with
        | .panic msg => .panic msg
        | .ok errs =>
          if errs = [] then .ok none
          else .ok (some (fmtErrorfNoArgs (stringsJoin errs ","))) := rfl
  rw [hred, h]

/-- Witness for C10: a two-replica list whose second pod has a nil
annotation map panics even though every patch would succeed. -/
theorem annotateOperatorPods_nil_map_panics_witness :
    annotateOperatorPods
        (.ok [⟨"operator-1", [], some []⟩, ⟨"operator-2", [], none⟩])
        (fun _ _ => .ok ()) [(AnnotationPreDeleteHookStarted, StringTrue)]
      = .panic "assignment to entry in nil map" :=
  annotateOperatorPods_nil_map_panics
    [⟨"operator-1", [], some []⟩, ⟨"operator-2", [], none⟩]
    (fun _ _ => .ok ()) [(AnnotationPreDeleteHookStarted, StringTrue)]
    ⟨"operator-2", [], none⟩ (by decide) rfl (by decide)

/-- Insertion into a Go string map makes the inserted key present. -/
theorem mapInsert_key_self (m : List (String × String)) (k v : String) :
    k ∈ (mapInsert m k v).map Prod.fst := by
  unfold mapInsert
  split
  · rename_i hany
    obtain ⟨p, hp, hpk⟩ := List.any_eq_true.mp hany
    refine List.mem_map.mpr ⟨(k, v), ?_, rfl⟩
    exact List.mem_map.mpr ⟨p, hp, by simp [of_decide_eq_true hpk]⟩
  · simp [List.map_append]

/-- Insertion into a Go string map keeps every key already present. -/
theorem mapInsert_key_preserved (m : List (String × String)) (k v k' : String)
    (h : k' ∈ m.map Prod.fst) : k' ∈ (mapInsert m k v).map Prod.fst := by
  unfold mapInsert
  split
  · obtain ⟨p, hp, hpk⟩ := List.mem_map.mp h
    by_cases hk : p.1 = k
    · refine List.mem_map.mpr ⟨(k, v), List.mem_map.mpr ⟨p, hp, by simp [hk]⟩, ?_⟩
      simp [← hpk, hk]
    · exact List.mem_map.mpr ⟨p, List.mem_map.mpr ⟨p, hp, by simp [hk]⟩, hpk⟩
  · simp [List.map_append, h]

/-- The merge fold keeps every key present before the fold. -/
theorem foldl_mapInsert_key_preserved :
    ∀ (anns m : List (String × String)) (k : String),
      k ∈ m.map Prod.fst →
      k ∈ (anns.foldl (fun acc p => mapInsert acc p.1 p.2) m).map Prod.fst := by
  intro anns
  induction anns with
  | nil =>
    intro m k h
    simpa using h
  | cons kv tl ih =>
    intro m k h
    simp only [List.foldl_cons]
    exact ih _ k (mapInsert_key_preserved m kv.1 kv.2 k h)

/-- After the merge fold, every merged key is present in the map. -/
theorem foldl_mapInsert_key_mem :
    ∀ (anns m : List (String × String)) (k : String),
      k ∈ anns.map Prod.fst →
      k ∈ (anns.foldl (fun acc p => mapInsert acc p.1 p.2) m).map Prod.fst := by
  intro anns
  induction anns with
  | nil =>
    intro m k h
    simp at h
  | cons kv tl ih =>
    intro m k h
    simp only [List.foldl_cons]
    rw [List.map_cons] at h
    rcases List.mem_cons.mp h with hk | hk
    · subst hk
      exact foldl_mapInsert_key_preserved tl _ _ (mapInsert_key_self m kv.1 kv.2)
    · exact ih _ k hk

/-- Counterexample to C2 as stated: the code marshals the whole merged
descriptor as the patch body, not an annotations-only document.  A patch
behavior that accepts exactly the annotations-only document rejects what
the publisher actually sends (first conjunct), and the marshalled merged
descriptor differs from the annotations-only document: it carries the
name, the labels and the pre-existing annotation entries (second
conjunct). -/
theorem jsonMarshalPod_payload_claim_cex :
    annotateOperatorPods
        (.ok [⟨"vault-secrets-operator-0", [("control-plane", "controller-manager")],
          some [("existing", "1")]⟩])
        (fun _ payload =>
          if payload = specMergePatchPayload
              [(AnnotationInMemoryVaultTokensRevoked, StringTrue)] then .ok ()
          else .error "payload is not the annotations-only document")
        [(AnnotationInMemoryVaultTokensRevoked, StringTrue)]
      = .ok (some "payload is not the annotations-only document")
    ∧ (mergeAnnotations
        ⟨"vault-secrets-operator-0", [("control-plane", "controller-manager")],
          some [("existing", "1")]⟩
        [(AnnotationInMemoryVaultTokensRevoked, StringTrue)]).map jsonMarshalPod
      ≠ some (specMergePatchPayload
          [(AnnotationInMemoryVaultTokensRevoked, StringTrue)]) :=
  ⟨by decide, by decide⟩

/-- C2 (amended): the merge-patch payload is the JSON rendering of the
entire merged descriptor, not an annotations-only document: it encodes
the changed annotation keys supplied in the call, but also the
descriptor's other fields -- its name, its labels and every pre-existing
annotation entry whose key is not among the changed keys. -/
theorem jsonMarshalPod_payload_full_descriptor :
    ∀ (pod : Pod) (m anns : List (String × String)),
      pod.annotations = some m →
      ∃ pod', mergeAnnotations pod anns = some pod'
        ∧ (pod.name ≠ "" → (jsonMarshalPod pod').name = some pod.name)
        ∧ (pod.labels ≠ [] → (jsonMarshalPod pod').labels = some pod.labels)
        ∧ (∀ a ∈ m, a.1 ∉ anns.map Prod.fst →
            ∃ l, (jsonMarshalPod pod').annotations = some l ∧ a ∈ l)
        ∧ (∀ k ∈ anns.map Prod.fst,
            ∃ l, (jsonMarshalPod pod').annotations = some l
              ∧ k ∈ l.map Prod.fst) := by
  intro pod m anns hpm
  cases hanns : anns with
  | nil =>
    refine ⟨pod, by simp [mergeAnnotations], ?_, ?_, ?_, ?_⟩
    · intro hname
      simp [jsonMarshalPod, hname]
    · intro hlab
      simp [jsonMarshalPod, hlab]
    · intro a ha _
      have hm : m ≠ [] := List.ne_nil_of_mem ha
      exact ⟨m, by simp [jsonMarshalPod, hpm, hm], ha⟩
    · intro k hk
      simp at hk
  | cons kv tl =>
    set merged := (kv :: tl).foldl (fun acc p => mapInsert acc p.1 p.2) m with hmerged
    refine ⟨{ pod with annotations := some merged }, ?_, ?_, ?_, ?_, ?_⟩
    · unfold mergeAnnotations
      rw [hpm]
    · intro hname
      simp [jsonMarshalPod, hname]
    · intro hlab
      simp [jsonMarshalPod, hlab]
    · intro a ha hk
      have hmem : a ∈ (kv :: tl).foldl (fun acc p => mapInsert acc p.1 p.2) m :=
        foldl_mapInsert_mem (kv :: tl) m a ha hk
      have hne : (kv :: tl).foldl (fun acc p => mapInsert acc p.1 p.2) m ≠ [] :=
        List.ne_nil_of_mem hmem
      have hne' : tl.foldl (fun acc p => mapInsert acc p.1 p.2) (mapInsert m kv.1 kv.2) ≠ [] := by
        simpa [List.foldl_cons] using hne
      exact ⟨_, by simp [jsonMarshalPod, hne', hmerged], hmem⟩
    · intro k hk
      have hkm : k ∈ merged.map Prod.fst := by
        rw [hmerged]
        exact foldl_mapInsert_key_mem (kv :: tl) m k hk
      have hne2 : merged ≠ [] := by
        intro hnil
        rw [hnil] at hkm
        simp at hkm
      have hne2' : tl.foldl (fun acc p => mapInsert acc p.1 p.2) (mapInsert m kv.1 kv.2) ≠ [] := by
        rw [hmerged] at hne2
        simpa [List.foldl_cons] using hne2
      exact ⟨merged, by simp [jsonMarshalPod, hne2', hmerged], hkm⟩

/-- Witness for C2 (amended): one descriptor with a name, a label and a
pre-existing annotation, merged with one changed key; the payload carries
the name, the label, the pre-existing entry and the changed key. -/
theorem jsonMarshalPod_payload_full_descriptor_witness :
    ∃ pod', mergeAnnotations ⟨"p", [("l", "v")], some [("a", "1")]⟩ [("k", "true")]
        = some pod'
      ∧ ("p" ≠ "" → (jsonMarshalPod pod').name = some "p")
      ∧ ([("l", "v")] ≠ ([] : List (String × String)) →
          (jsonMarshalPod pod').labels = some [("l", "v")])
      ∧ (∀ a ∈ [("a", "1")], a.1 ∉ [("k", "true")].map Prod.fst →
          ∃ l, (jsonMarshalPod pod').annotations = some l ∧ a ∈ l)
      ∧ (∀ k ∈ [("k", "true")].map Prod.fst,
          ∃ l, (jsonMarshalPod pod').annotations = some l
            ∧ k ∈ l.map Prod.fst) :=
  jsonMarshalPod_payload_full_descriptor ⟨"p", [("l", "v")], some [("a", "1")]⟩
    [("a", "1")] [("k", "true")] rfl

/-- C3: the cluster-wide revocation watcher, on every execution whose
listings never contain a replica with the revocation-complete annotation
set to "true", never reaches the success terminal state, keeps running
unless its cancellation token fires, and issues only list operations
against the store (first conjunct); a transient list error never changes
the outcome, there being no failed terminal state (second conjunct); the
watcher succeeds at the first poll whose listing contains a matching
replica (third conjunct) and is cancelled at the first poll whose
cancellation token has fired (fourth conjunct). -/
theorem awaitInMemoryVaultTokensRevoked_spec :
    (∀ trace : List PollStep,
      (∀ s ∈ trace, stepMatches s = false) →
      (awaitInMemoryVaultTokensRevoked trace).1 ≠ .satisfied
      ∧ ((∀ s ∈ trace, s.1 = false) →
          (awaitInMemoryVaultTokensRevoked trace).1 = .running)
      ∧ (∀ op ∈ (awaitInMemoryVaultTokensRevoked trace).2, op = .listPods))
    ∧ (∀ (e : String) (rest : List PollStep),
        (awaitInMemoryVaultTokensRevoked ((false, .error e) :: rest)).1
          = (awaitInMemoryVaultTokensRevoked rest).1)
    ∧ (∀ (pre rest : List PollStep) (res : Except String (List Pod)),
        (∀ s ∈ pre, s.1 = false ∧ stepMatches s = false) →
        stepMatches (false, res) = true →
        (awaitInMemoryVaultTokensRevoked (pre ++ (false, res) :: rest)).1
          = .satisfied)
    ∧ (∀ (pre rest : List PollStep) (c : Except String (List Pod)),
        (∀ s ∈ pre, s.1 = false ∧ stepMatches s = false) →
        (awaitInMemoryVaultTokensRevoked (pre ++ (true, c) :: rest)).1
          = .cancelled) := by
  refine ⟨?_, ?_, ?_, ?_⟩
  · intro trace
    induction trace with
    | nil =>
      intro _
      refine ⟨by simp [awaitInMemoryVaultTokensRevoked], ?_, ?_⟩
      · intro _
        simp [awaitInMemoryVaultTokensRevoked]
      · intro op hop
        simp [awaitInMemoryVaultTokensRevoked] at hop
    | cons s rest ih =>
      intro hnm
      obtain ⟨c0, res⟩ := s
      have hs : stepMatches (c0, res) = false := hnm (c0, res) (by simp)
      have hrest : ∀ q ∈ rest, stepMatches q = false :=
        fun q hq => hnm q (by simp [hq])
      obtain ⟨ih1, ih2, ih3⟩ := ih hrest
      cases c0 with
      | true =>
        refine ⟨by simp [awaitInMemoryVaultTokensRevoked], ?_, ?_⟩
        · intro hnc
          have := hnc (true, res) (by simp)
          simp at this
        · intro op hop
          simp [awaitInMemoryVaultTokensRevoked] at hop
      | false =>
        cases res with
        | error e =>
          refine ⟨?_, ?_, ?_⟩
          · simpa [awaitInMemoryVaultTokensRevoked] using ih1
          · intro hnc
            have hrc : ∀ q ∈ rest, q.1 = false := fun q hq => hnc q (by simp [hq])
            simpa [awaitInMemoryVaultTokensRevoked] using ih2 hrc
          · intro op hop
            simp only [awaitInMemoryVaultTokensRevoked, if_neg Bool.false_ne_true] at hop
            simp at hop
            rcases hop with h | h
            · exact h
            · exact ih3 op h
        | ok pods =>
          have hany : pods.any podRevoked = false := by simpa [stepMatches] using hs
          refine ⟨?_, ?_, ?_⟩
          · simpa [awaitInMemoryVaultTokensRevoked, hany] using ih1
          · intro hnc
            have hrc : ∀ q ∈ rest, q.1 = false := fun q hq => hnc q (by simp [hq])
            simpa [awaitInMemoryVaultTokensRevoked, hany] using ih2 hrc
          · intro op hop
            simp [awaitInMemoryVaultTokensRevoked, hany] at hop
            rcases hop with h | h
            · exact h
            · exact ih3 op h
  · intro e rest
    simp [awaitInMemoryVaultTokensRevoked]
  · intro pre
    induction pre with
    | nil =>
      intro rest res _ hmatch
      cases res with
      | error e => simp [stepMatches] at hmatch
      | ok pods =>
        have hany : pods.any podRevoked = true := by simpa [stepMatches] using hmatch
        simp [awaitInMemoryVaultTokensRevoked, hany]
    | cons s pre ih =>
      intro rest res hpre hmatch
      obtain ⟨c0, res0⟩ := s
      have hc0 : c0 = false := (hpre (c0, res0) (by simp)).1
      have hs : stepMatches (c0, res0) = false := (hpre (c0, res0) (by simp)).2
      have hpre' : ∀ q ∈ pre, q.1 = false ∧ stepMatches q = false :=
        fun q hq => hpre q (by simp [hq])
      subst hc0
      cases res0 with
      | error e =>
        simpa [awaitInMemoryVaultTokensRevoked] using ih rest res hpre' hmatch
      | ok pods =>
        have hany : pods.any podRevoked = false := by simpa [stepMatches] using hs
        simpa [awaitInMemoryVaultTokensRevoked, hany] using ih rest res hpre' hmatch
  · intro pre
    induction pre with
    | nil =>
      intro rest c _
      simp [awaitInMemoryVaultTokensRevoked]
    | cons s pre ih =>
      intro rest c hpre
      obtain ⟨c0, res0⟩ := s
      have hc0 : c0 = false := (hpre (c0, res0) (by simp)).1
      have hs : stepMatches (c0, res0) = false := (hpre (c0, res0) (by simp)).2
      have hpre' : ∀ q ∈ pre, q.1 = false ∧ stepMatches q = false :=
        fun q hq => hpre q (by simp [hq])
      subst hc0
      cases res0 with
      | error e =>
        simpa [awaitInMemoryVaultTokensRevoked] using ih rest c hpre'
      | ok pods =>
        have hany : pods.any podRevoked = false := by simpa [stepMatches] using hs
        simpa [awaitInMemoryVaultTokensRevoked, hany] using ih rest c hpre'

/-- Witness for C3: after one transient list error and one non-matching
listing, a fired cancellation token ends the watcher as cancelled; with a
matching listing instead, the watcher ends satisfied. -/
theorem awaitInMemoryVaultTokensRevoked_spec_witness :
    (awaitInMemoryVaultTokensRevoked
        ([((false : Bool), (Except.error "transient" : Except String (List Pod))),
          (false, .ok [⟨"operator-0", [], some []⟩])]
          ++ (true, (Except.ok [] : Except String (List Pod))) :: [])).1
      = .cancelled
    ∧ (awaitInMemoryVaultTokensRevoked
        ([((false : Bool), (Except.error "transient" : Except String (List Pod)))]
          ++ (false, .ok [⟨"operator-0", [],
              some [(AnnotationInMemoryVaultTokensRevoked, StringTrue)]⟩]) :: [])).1
      = .satisfied :=
  ⟨awaitInMemoryVaultTokensRevoked_spec.2.2.2
      [(false, .error "transient"), (false, .ok [⟨"operator-0", [], some []⟩])]
      [] (.ok []) (by decide),
    awaitInMemoryVaultTokensRevoked_spec.2.2.1
      [(false, .error "transient")] []
      (.ok [⟨"operator-0", [], some [(AnnotationInMemoryVaultTokensRevoked, StringTrue)]⟩])
      (by decide) (by decide)⟩

end VSO
